import Mathlib

/-!
Verification of the xlsximpexp SQLite-extension family (XLSX import/export).

This file gives a shallow embedding in Lean of the data model and the
algorithms of the C sources:
  * `src/opus/xlsximport.c`   — importer (col_to_num, ws_set_cell, ws_end_element),
                                an exporter (gen_worksheet, xlsx_export_func)
                                and a second importer variant (should_import)
                                embedded in the same file,
  * `src/copilot/xlsxexport.c` — exporter (sanitize_sheet_name, col_to_letters,
                                sst_index),
  * `src/unnamed/part_001`     — importer variant (colname_to_index, sheet_end,
                                should_import_sheet, import_xlsx_to_db),
  * `src/unnamed/part_002`     — exporter variant (sanitize_sheet_name).

C strings are modelled as `List Char`, `NULL`-able strings as `Option String`
or `Option (List Char)`, C `int` values as `Int` (or `Nat` where the source
guarantees non-negativity), and fallible operations as `Option`/`Except`.
-/

namespace Xlsx

/-! ## Column-letter arithmetic -/

/-- Embedding of `col_to_num` from `src/opus/xlsximport.c` (lines 73-80):
walks the string while `isalpha`, accumulating `num = num*26 + (toupper(c)-'A'+1)`,
and stops at the first non-alphabetic character. -/
def col_to_num_go (num : Nat) : List Char → Nat
  | [] => num
  | c :: rest =>
      if c.isAlpha then
        col_to_num_go (num * 26 + (c.toUpper.toNat - 65 + 1)) rest
      else num

def col_to_num (cs : List Char) : Nat := col_to_num_go 0 cs

/-- Embedding of `col_to_letters` from `src/copilot/xlsxexport.c` (lines 173-185),
expressed over the 1-based value `v = col + 1` that the C function computes first:
repeatedly emits `'A' + (v-1) % 26` and continues with `(v-1)/26`, then reverses.
The recursion below produces the reversed (i.e. final) letter order directly. -/
def col_to_letters (v : Nat) : List Char :=
  if h : v = 0 then []
  else col_to_letters ((v - 1) / 26) ++ [Char.ofNat (65 + (v - 1) % 26)]
  termination_by v
  decreasing_by
    exact Nat.lt_of_le_of_lt (Nat.div_le_self _ _)
      (Nat.sub_lt (Nat.pos_of_ne_zero h) Nat.one_pos)

/-! ## C `atoi`, ctype helpers and decimal rendering -/

/-- C `isspace` over the ASCII characters: space, `\t`, `\n`, `\v`, `\f`, `\r`. -/
def c_isspace (c : Char) : Bool :=
  c = ' ' || c = Char.ofNat 9 || c = Char.ofNat 10 || c = Char.ofNat 11 ||
  c = Char.ofNat 12 || c = Char.ofNat 13

def atoi_digits : List Char → Nat → Nat
  | [], acc => acc
  | c :: rest, acc =>
      if c.isDigit then atoi_digits rest (acc * 10 + (c.toNat - 48)) else acc

/-- Embedding of C `atoi`: skip whitespace, optional sign, then leading digits. -/
def atoi (s : List Char) : Int :=
  match s.dropWhile c_isspace with
  | '-' :: rest => - (atoi_digits rest 0 : Int)
  | '+' :: rest => (atoi_digits rest 0 : Int)
  | rest => (atoi_digits rest 0 : Int)

/-- Decimal rendering of a natural number, as `snprintf`/`sqlite3_mprintf`
produce for `%d`/`%lld` with a non-negative argument.  Structured with an
explicit fuel (first argument) so the definition is structurally recursive;
`natDigits` supplies `n` itself as fuel, which `n / 10 < n` makes sufficient. -/
def natDigitsAux : Nat → Nat → List Char
  | 0, _ => []
  | fuel + 1, n =>
      if n < 10 then [Char.ofNat (48 + n)]
      else natDigitsAux fuel (n / 10) ++ [Char.ofNat (48 + n % 10)]

def natDigits (n : Nat) : List Char := natDigitsAux n n

/-- Decimal rendering of a C signed integer (`%d`/`%lld`). -/
def intDigits (i : Int) : List Char :=
  if i < 0 then '-' :: natDigits i.natAbs else natDigits i.toNat

/-! ## Cell-grid reconstruction (opus importer) -/

/-- Embedding of `ws_set_cell` from `src/opus/xlsximport.c` (lines 376-406).
A row is a list of cells, `none` being a null/empty cell (`is_null = 1`,
`value = NULL` in C collapse to `none`; a set cell with a NULL value is also
`none`, matching lines 399-400).  The C code pads the row with null cells while
`row->count < col_num` and then overwrites index `col_num - 1`; callers
guarantee `col_num ≥ 1` (line 485 checks `cur_col > 0`). -/
def ws_set_cell (row : List (Option String)) (col : Nat) (v : Option String) :
    List (Option String) :=
  (row ++ List.replicate (col - row.length) none).set (col - 1) v

/-- Folding a sequence of declared cells `(col, value)` (in document order,
1-based columns) through `ws_set_cell`, starting from the empty row, exactly as
the worksheet end-element handler does for one declared `<row>`. -/
def buildRow (ds : List (Nat × Option String)) : List (Option String) :=
  ds.foldl (fun r d => ws_set_cell r d.1 d.2) []

/-- The maximum declared column of a row (what `row->count` ends up as, and
what `ws->max_col` tracks per worksheet). -/
def maxCol (ds : List (Nat × Option String)) : Nat :=
  ds.foldl (fun m d => max m d.1) 0

/-- Embedding of the cell-value computation in `ws_end_element` from
`src/opus/xlsximport.c` (lines 483-503).  `value` starts as `NULL`; a
shared-string cell (`t="s"`) resolves its `atoi`-parsed index against the pool
only when the index is in range, otherwise `value` stays `NULL`; an inline
string uses the accumulated text; any other type uses the text when non-empty.
(`wsp->text` is modelled as the accumulated character list, which is what it
holds whenever a `<v>`/`<t>` element was seen.) -/
def opus_cell_value (shared : List String) (curType : Char) (text : List Char) :
    Option String :=
  if curType = 's' then
    let idx := atoi text
    if 0 ≤ idx ∧ idx < (shared.length : Int) then some (shared.getD idx.toNat "")
    else none
  else if curType = 'i' then some (String.mk text)
  else if text.length > 0 then some (String.mk text)
  else none

/-! ## Cell-grid reconstruction (part_001 importer) -/

/-- Embedding of `colname_to_index` from `src/unnamed/part_001` (lines 142-150):
accumulates `idx = idx*26 + (c - 'A' + 1)` over leading letters (either case),
stops at the first non-letter, and finally returns `idx - 1` (0-based; `-1`
when no letter was consumed). -/
def colname_to_index_go (idx : Int) : List Char → Int
  | [] => idx
  | c :: rest =>
      if 65 ≤ c.toNat ∧ c.toNat ≤ 90 then
        colname_to_index_go (idx * 26 + ((c.toNat : Int) - 65 + 1)) rest
      else if 97 ≤ c.toNat ∧ c.toNat ≤ 122 then
        colname_to_index_go (idx * 26 + ((c.toNat : Int) - 97 + 1)) rest
      else idx

def colname_to_index (col : List Char) : Int := colname_to_index_go 0 col - 1

/-- The leading-letters extraction in `sheet_end` from `src/unnamed/part_001`
(lines 296-302): copy characters of the cell reference until the first digit,
up to 31 characters. -/
def cell_ref_letters (ref : List Char) : List Char :=
  (ref.takeWhile (fun c => ¬ c.isDigit)).take 31

/-- The clamped 0-based column index computed by `sheet_end`
(lines 303-304): `if(colidx < 0) colidx = 0`. -/
def p1_colidx (ref : List Char) : Nat :=
  let ci := colname_to_index (cell_ref_letters ref)
  if ci < 0 then 0 else ci.toNat

/-- The row-buffer update of `sheet_end` (lines 305, 321-322): `ensure_rowcap`
guarantees slots `0..colidx` exist (new slots are `NULL`, lines 253-260), the
previous value at `colidx` is freed and replaced. -/
def p1_store (rowbuf : List (Option String)) (colidx : Nat) (val : String) :
    List (Option String) :=
  (rowbuf ++ List.replicate (colidx + 1 - rowbuf.length) none).set colidx (some val)

/-- Embedding of the cell-value computation in `sheet_end` from
`src/unnamed/part_001` (lines 306-320): a cell whose type attribute starts
with `'s'` and has accumulated text resolves the `atoi`-parsed index against
the shared-string pool, yielding the empty string when the index is out of
range; every other branch stores the accumulated text. -/
def p1_cell_value (shared : List String) (cellType text : List Char) : String :=
  if cellType.headI = 's' ∧ text.length > 0 then
    let idx := atoi text
    if 0 ≤ idx ∧ idx < (shared.length : Int) then shared.getD idx.toNat ""
    else ""
  else String.mk text

/-! ## Shared-string interning (copilot exporter) -/

/-- The linear scan inside `sst_index` from `src/copilot/xlsxexport.c`
(lines 243-245): index of the first exact (`strcmp`) match. -/
def sst_find : List String → String → Option Nat
  | [], _ => none
  | x :: rest, txt => if x = txt then some 0 else (sst_find rest txt).map (· + 1)

/-- Embedding of `sst_index` from `src/copilot/xlsxexport.c` (lines 241-255):
return the index of an existing exact match, else append the text and return
the new index (the old count).  A `NULL` argument is replaced by `""` by the
caller-facing C code; the embedding takes the already-defaulted text. -/
def sst_index (s : List String) (txt : String) : Nat × List String :=
  match sst_find s txt with
  | some i => (i, s)
  | none => (s.length, s ++ [txt])

/-! ## Worksheet generation and the cell-size limit (opus exporter) -/

def EXCEL_MAX_CELL_SIZE : Nat := 32767

/-- Mirror of the C struct `ExportWarnings` in `src/opus/xlsximport.c`
(exporter half, lines 942-947). -/
structure ExportWarnings where
  cells_truncated : Nat
  first_truncated_row : Nat
  first_truncated_col : Nat
  first_truncated_table : String
deriving DecidableEq, Repr

/-- The warning-tracking code repeated at lines 1293-1299 and 1321-1327 of the
opus exporter: bump the count; on the first truncation record the location
(the C stores `col + 1` as the 1-based column). -/
def note_truncation (w : ExportWarnings) (tbl : String) (rownum colPlus1 : Nat) :
    ExportWarnings :=
  let w' := { w with cells_truncated := w.cells_truncated + 1 }
  if w'.cells_truncated = 1 then
    { w' with first_truncated_row := rownum, first_truncated_col := colPlus1,
              first_truncated_table := tbl }
  else w'

/-- A SQLite column value as `sqlite3_column_type` classifies it.  A float is
carried as its `%.15g` rendering (the generator only ever concatenates that
text), a blob as its byte list. -/
inductive SqlValue where
  | intg (i : Int)
  | flt (s : List Char)
  | text (s : List Char)
  | blob (b : List Nat)
  | null
deriving DecidableEq

/-- The body of one generated `<c>` element, before XML escaping: a numeric
cell body, an inline-string body, or no cell at all (the `SQLITE_NULL` branch
at lines 1346-1349 emits nothing). -/
inductive EmittedCell where
  | numCell (body : List Char)
  | inlineStr (body : List Char)
  | absent
deriving DecidableEq

/-- `%02X` rendering of one byte (lines 1334-1335). -/
def byte_hex (b : Nat) : List Char :=
  let hexDigit : Nat → Char := fun n =>
    if n < 10 then Char.ofNat (48 + n) else Char.ofNat (55 + n)
  [hexDigit (b / 16 % 16), hexDigit (b % 16)]

def blob_hex (bs : List Nat) : List Char := (bs.map byte_hex).flatten

/-- Embedding of the per-cell `switch` in `gen_worksheet` from
`src/opus/xlsximport.c` (lines 1265-1350): integers and floats become numeric
cells; a text value longer than `EXCEL_MAX_CELL_SIZE` is truncated to exactly
that many characters and a truncation warning is recorded; a blob is emitted
as hex, halved to `EXCEL_MAX_CELL_SIZE / 2` bytes when the hex doubling would
exceed the limit; `NULL` emits no cell. -/
def emit_data_cell (tbl : String) (rownum col : Nat) (v : SqlValue)
    (w : ExportWarnings) : EmittedCell × ExportWarnings :=
  match v with
  | .intg i => (.numCell (intDigits i), w)
  | .flt s => (.numCell s, w)
  | .text s =>
      if s.length > EXCEL_MAX_CELL_SIZE then
        (.inlineStr (s.take EXCEL_MAX_CELL_SIZE), note_truncation w tbl rownum (col + 1))
      else (.inlineStr s, w)
  | .blob b =>
      if 2 * b.length > EXCEL_MAX_CELL_SIZE then
        (.inlineStr (blob_hex (b.take (EXCEL_MAX_CELL_SIZE / 2))),
         note_truncation w tbl rownum (col + 1))
      else (.inlineStr (blob_hex b), w)
  | .null => (.absent, w)

/-- One data row of `gen_worksheet` (lines 1262-1355): cells in column order. -/
def emit_row_cells (tbl : String) (rownum : Nat) :
    List SqlValue → Nat → ExportWarnings → List EmittedCell × ExportWarnings
  | [], _, w => ([], w)
  | v :: rest, col, w =>
      let p := emit_data_cell tbl rownum col v w
      let q := emit_row_cells tbl rownum rest (col + 1) p.2
      (p.1 :: q.1, q.2)

/-- The data-row loop of `gen_worksheet`, starting at row number 2. -/
def emit_data_rows (tbl : String) :
    List (List SqlValue) → Nat → ExportWarnings →
      List (List EmittedCell) × ExportWarnings
  | [], _, w => ([], w)
  | r :: rest, rownum, w =>
      let p := emit_row_cells tbl rownum r 0 w
      let q := emit_data_rows tbl rest (rownum + 1) p.2
      (p.1 :: q.1, q.2)

structure WorksheetOut where
  headerTexts : List (List Char)
  dataRows : List (List EmittedCell)
  warnings : ExportWarnings

/-- Embedding of `gen_worksheet` from `src/opus/xlsximport.c` (lines
1210-1379), at the granularity of emitted cell bodies (XML scaffolding and
escaping elided: they are injective renderings of these bodies).  The header
row (lines 1249-1258) emits each column name through `xml_escape` with no
truncation and no warning tracking; data rows go through the truncating
per-cell switch. -/
def gen_worksheet (tbl : String) (colnames : List (List Char))
    (rows : List (List SqlValue)) (w : ExportWarnings) : WorksheetOut :=
  let p := emit_data_rows tbl rows 2 w
  { headerTexts := colnames, dataRows := p.1, warnings := p.2 }

/-- Embedding of the result construction of `xlsx_export_func` from
`src/opus/xlsximport.c` (lines 1538-1549): with truncations, the function
still returns a text result (the filename annotated with the warning, its
count and first location); otherwise the bare filename.  Errors are the
`sqlite3_result_error` paths, modelled as `Except.error`; this tail never
takes them. -/
def xlsx_export_result (filename : String) (w : ExportWarnings) :
    Except String String :=
  if w.cells_truncated > 0 then
    Except.ok (filename ++ " (WARNING: " ++ String.mk (natDigits w.cells_truncated) ++
      " cell(s) exceeded Excel's " ++ String.mk (natDigits EXCEL_MAX_CELL_SIZE) ++
      " character limit and were truncated. First occurrence: table '" ++
      w.first_truncated_table ++ "', row " ++
      String.mk (natDigits w.first_truncated_row) ++ ", column " ++
      String.mk (natDigits w.first_truncated_col) ++ ")")
  else Except.ok filename

/-- Specification-side predicate: does `gen_worksheet` truncate this value?
(text beyond the limit, or a blob whose hex doubling is beyond the limit). -/
def truncating : SqlValue → Bool
  | .text s => EXCEL_MAX_CELL_SIZE < s.length
  | .blob b => EXCEL_MAX_CELL_SIZE < 2 * b.length
  | _ => false

/-- Specification-side: 0-based column of the first truncating value of a row. -/
def firstTruncCol : List SqlValue → Option Nat
  | [] => none
  | v :: rest =>
      if truncating v then some 0 else (firstTruncCol rest).map (· + 1)

/-- Specification-side: 0-based (row, column) of the first truncating value. -/
def firstTruncPos : List (List SqlValue) → Option (Nat × Nat)
  | [] => none
  | r :: rest =>
      match firstTruncCol r with
      | some c => some (0, c)
      | none => (firstTruncPos rest).map (fun p => (p.1 + 1, p.2))

/-- Specification-side: number of truncating values in a table. -/
def countTrunc (rows : List (List SqlValue)) : Nat :=
  (rows.map (fun r => r.countP truncating)).sum

/-! ## Sheet-name sanitization -/

/-- The Excel-forbidden sheet-name characters `: \ / ? * [ ]`. -/
def excel_forbidden (c : Char) : Bool :=
  c = ':' || c = Char.ofNat 92 || c = '/' || c = '?' || c = '*' ||
  c = '[' || c = ']'

/-- Embedding of `sanitize_sheet_name` from `src/unnamed/part_002`
(lines 90-110): remove the forbidden characters, then truncate to 31.
(This variant performs no whitespace/apostrophe handling, no empty-name
placeholder and no collision disambiguation.) -/
def p2_sanitize (name : List Char) : List Char :=
  ((name.filter (fun c => ¬ excel_forbidden c)).take 31)

/-- Leading/trailing `isspace` trim, as `sanitize_sheet_name` in
`src/copilot/xlsxexport.c` does at lines 111-118. -/
def trim_ws (s : List Char) : List Char :=
  ((s.dropWhile c_isspace).reverse.dropWhile c_isspace).reverse

/-- Dropping one leading apostrophe (`src/copilot/xlsxexport.c` line 133). -/
def drop_lead_quote (s : List Char) : List Char :=
  match s with
  | c :: rest => if c = Char.ofNat 39 then rest else c :: rest
  | [] => []

/-- Dropping one trailing apostrophe (lines 134-135). -/
def drop_trail_quote (s : List Char) : List Char :=
  match s.getLast? with
  | some c => if c = Char.ofNat 39 then s.dropLast else s
  | none => s

/-- Dropping at most one leading and one trailing apostrophe
(`src/copilot/xlsxexport.c` lines 132-135). -/
def cp_strip_quotes (s : List Char) : List Char :=
  drop_trail_quote (drop_lead_quote s)

/-- Embedding of the pre-uniqueness part of `sanitize_sheet_name` from
`src/copilot/xlsxexport.c` (lines 109-147): trim whitespace, remove forbidden
characters, strip one leading/trailing apostrophe, substitute `"Sheet%d"`
(with `idx+1`) when empty, truncate to 31 characters. -/
def cp_sanitize_base (name : List Char) (idx : Nat) : List Char :=
  let t := trim_ws name
  let t := t.filter (fun c => ¬ excel_forbidden c)
  let t := cp_strip_quotes t
  let t := if t.isEmpty then 'S' :: 'h' :: 'e' :: 'e' :: 't' :: natDigits (idx + 1)
           else t
  t.take 31

/-- The `" (%d)"` suffix appended on a collision (line 162). -/
def cp_suffix_chars (suffix : Nat) : List Char :=
  ' ' :: '(' :: (natDigits suffix ++ [')'])

/-- Embedding of the uniqueness loop of `sanitize_sheet_name` from
`src/copilot/xlsxexport.c` (lines 149-167): while the candidate collides with
an existing name, append `" (suffix)"`, re-truncate to 31 characters,
increment the suffix and retry.  The C loop has no bound, so the embedding
carries explicit fuel; `none` models non-termination of the C loop. -/
def cp_uniq (existing : List (List Char)) : List Char → Nat → Nat → Option (List Char)
  | _, _, 0 => none
  | t, suffix, fuel + 1 =>
      if existing.contains t then
        cp_uniq existing ((t ++ cp_suffix_chars suffix).take 31) (suffix + 1) fuel
      else some t

/-- One call of the copilot `sanitize_sheet_name(name, idx, existing, n)`. -/
def cp_sanitize_sheet_name (existing : List (List Char)) (name : List Char)
    (idx : Nat) (fuel : Nat) : Option (List Char) :=
  cp_uniq existing (cp_sanitize_base name idx) 1 fuel

/-- The sheet-name derivation loop of the copilot `xlsx_export_func`
(lines 696-698): each table name is sanitized against the names already
produced. -/
def cp_sheet_names_go : List (List Char) → Nat → List (List Char) → Nat →
    Option (List (List Char))
  | [], _, acc, _ => some acc
  | t :: rest, idx, acc, fuel =>
      match cp_sanitize_sheet_name acc t idx fuel with
      | none => none
      | some nm => cp_sheet_names_go rest (idx + 1) (acc ++ [nm]) fuel

def cp_sheet_names (tables : List (List Char)) (fuel : Nat) :
    Option (List (List Char)) :=
  cp_sheet_names_go tables 0 [] fuel

/-! ## Sheet selection (import) -/

/-- Embedding of `is_integer_string` from `src/unnamed/part_001`
(lines 427-437). -/
def is_integer_string (s : List Char) : Bool :=
  match s with
  | [] => false
  | c :: rest =>
      let p := if c = '+' || c = '-' then rest else c :: rest
      !p.isEmpty && p.all Char.isDigit

/-- One selector test from `should_import_sheet` in `src/unnamed/part_001`
(lines 449-455): an integer-shaped selector matches on the declared sheetId or
on the 1-based position; any other text matches the display name exactly
(case-sensitive `strcmp`). -/
def sel_matches_p1 (names : List String) (si : Nat) (sheetId : Int)
    (sel : String) : Bool :=
  if is_integer_string sel.toList then
    decide (atoi sel.toList = sheetId) || decide (atoi sel.toList = (si : Int) + 1)
  else
    match names[si]? with
    | some nm => nm = sel
    | none => false

/-- Embedding of `should_import_sheet` from `src/unnamed/part_001`
(lines 444-458): no selectors means import everything; `NULL` selectors are
skipped. -/
def should_import_sheet (names : List String) (si : Nat) (sheetId : Int)
    (selectors : List (Option String)) : Bool :=
  if selectors.length = 0 then true
  else selectors.any (fun o =>
    match o with
    | none => false
    | some sel => sel_matches_p1 names si sheetId sel)

/-- A SQLite function argument as `should_import` in the second importer
variant of `src/opus/xlsximport.c` (lines 2012-2027) classifies it: an
integer, a text, or any other value type (which never matches). -/
inductive SqlArg where
  | intv (i : Int)
  | textv (s : String)
  | otherv
deriving DecidableEq

/-- Embedding of `should_import` (lines 2012-2027): with no extra arguments,
everything is imported; an integer argument matches only `sheet_idx + 1` (the
1-based manifest position — the declared sheetId is never consulted); a text
argument matches the sheet name exactly. -/
def should_import (args : List SqlArg) (sheet_idx : Nat) (sheet_name : String) :
    Bool :=
  if args.length = 0 then true
  else args.any (fun a =>
    match a with
    | .intv i => decide (i = (sheet_idx : Int) + 1)
    | .textv s => s = sheet_name
    | .otherv => false)

/-! ## Import orchestration (part_001) -/

/-- One manifest entry (`wb_parser_ctx` slot: display name and declared
sheetId, `src/unnamed/part_001` lines 210-229). -/
structure SheetEntry where
  name : String
  sheetId : Int
deriving DecidableEq

/-- The archive-read capability: `read_zip_file_sqlite` returns the bytes of
the first entry of that name, or `NULL` when absent.  An archive is modelled
as an association list of (entry name, content). -/
def read_entry (archive : List (String × String)) (nm : String) : Option String :=
  (archive.find? (fun e => e.1 = nm)).map Prod.snd

/-- `snprintf(..., "xl/worksheets/sheet%d.xml", sheetId)`
(`src/unnamed/part_001` line 524). -/
def sheet_path_by_id (sheetId : Int) : String :=
  "xl/worksheets/sheet" ++ String.mk (intDigits sheetId) ++ ".xml"

/-- The fallback `snprintf(..., "xl/worksheets/sheet%lu.xml", si + 1)`
(line 529). -/
def sheet_path_by_pos (si : Nat) : String :=
  "xl/worksheets/sheet" ++ String.mk (natDigits (si + 1)) ++ ".xml"

/-- Embedding of the control flow of `import_xlsx_to_db` from
`src/unnamed/part_001` (lines 465-708) at the sheet-counting granularity.
The expat manifest parse is the external XML-collaborator capability and is
passed in as `parseWb`; the sharedStrings read (lines 476-493, best-effort,
never fatal) and the per-sheet row contents only affect cell values, not the
control flow modelled here, and the storage collaborator (`CREATE TABLE` /
`INSERT`) is modelled as succeeding.  A missing `xl/workbook.xml` is fatal
(lines 507-512); a selected sheet whose stream is found under neither its
sheetId path nor its positional fallback is skipped without counting
(lines 526-535); every other selected sheet increments `tables_created`. -/
def import_xlsx_to_db (archive : List (String × String))
    (selectors : List (Option String)) (parseWb : String → List SheetEntry) :
    Except String Nat :=
  match read_entry archive "xl/workbook.xml" with
  | none => Except.error "xl/workbook.xml not found in archive (zipfile)"
  | some wbuf =>
      let sheets := parseWb wbuf
      let names := sheets.map (fun e => e.name)
      Except.ok (sheets.enum.foldl (fun cnt p =>
        if should_import_sheet names p.1 p.2.sheetId selectors then
          match read_entry archive (sheet_path_by_id p.2.sheetId) with
          | some _ => cnt + 1
          | none =>
              match read_entry archive (sheet_path_by_pos p.1) with
              | some _ => cnt + 1
              | none => cnt
        else cnt) 0)

/-- Specification-side: is the stream of manifest entry number `si` (carrying
`e`) readable from the archive, under the id path or the positional
fallback? -/
def sheet_readable (archive : List (String × String)) (si : Nat)
    (e : SheetEntry) : Bool :=
  (read_entry archive (sheet_path_by_id e.sheetId)).isSome ||
  (read_entry archive (sheet_path_by_pos si)).isSome

/-!
# Lemmas and theorems
-/

/-! ## Column-letter arithmetic lemmas -/

/-- Basic facts about the 26 letter characters `'A'..'Z'` used by the encoder. -/
lemma letter_facts : ∀ r : Nat, r < 26 →
    (Char.ofNat (65 + r)).isAlpha = true ∧
    (Char.ofNat (65 + r)).toUpper = Char.ofNat (65 + r) ∧
    (Char.ofNat (65 + r)).toNat = 65 + r := by
  decide

lemma col_to_num_go_append_letter (num : Nat) (cs : List Char)
    (h : ∀ c ∈ cs, c.isAlpha = true) (r : Nat) (hr : r < 26) :
    col_to_num_go num (cs ++ [Char.ofNat (65 + r)]) =
      col_to_num_go num cs * 26 + (r + 1) := by
  induction cs generalizing num with
  | nil =>
      obtain ⟨ha, hu, ht⟩ := letter_facts r hr
      simp [col_to_num_go, ha, hu, ht]
  | cons c rest ih =>
      have hc : c.isAlpha = true := h c (by simp)
      simp [col_to_num_go, hc]
      exact ih _ (fun x hx => h x (by simp [hx]))

lemma col_to_letters_alpha (v : Nat) :
    ∀ c ∈ col_to_letters v, c.isAlpha = true := by
  induction v using Nat.strong_induction_on with
  | _ v ih =>
    intro c hc
    by_cases h : v = 0
    · simp [col_to_letters, h] at hc
    · rw [col_to_letters, dif_neg h] at hc
      rcases List.mem_append.mp hc with h1 | h2
      · exact ih ((v - 1) / 26)
          (Nat.lt_of_le_of_lt (Nat.div_le_self _ _)
            (Nat.sub_lt (Nat.pos_of_ne_zero h) Nat.one_pos)) c h1
      · have hr : (v - 1) % 26 < 26 := Nat.mod_lt _ (by omega)
        obtain ⟨ha, _, _⟩ := letter_facts _ hr
        simp at h2
        rw [h2]
        exact ha

/-- Round trip of the bijective base-26 encoding: decoding the letters produced
for any positive column number yields that number back. -/
lemma col_to_num_col_to_letters (v : Nat) :
    col_to_num (col_to_letters v) = v := by
  induction v using Nat.strong_induction_on with
  | _ v ih =>
    by_cases h : v = 0
    · simp [col_to_letters, h, col_to_num, col_to_num_go]
    · rw [col_to_letters, dif_neg h]
      have hr : (v - 1) % 26 < 26 := Nat.mod_lt _ (by omega)
      unfold col_to_num
      rw [col_to_num_go_append_letter 0 _ (col_to_letters_alpha _) _ hr]
      have hq : col_to_num (col_to_letters ((v - 1) / 26)) = (v - 1) / 26 :=
        ih _ (Nat.lt_of_le_of_lt (Nat.div_le_self _ _)
          (Nat.sub_lt (Nat.pos_of_ne_zero h) Nat.one_pos))
      unfold col_to_num at hq
      rw [hq]
      have := Nat.div_add_mod (v - 1) 26
      omega

/-! ## Grid-reconstruction lemmas -/

lemma length_ws_set_cell (row : List (Option String)) (col : Nat) (v : Option String) :
    (ws_set_cell row col v).length = max row.length col := by
  simp [ws_set_cell]
  omega

lemma ws_set_cell_get_self (row : List (Option String)) (col : Nat)
    (v : Option String) (h : 1 ≤ col) :
    (ws_set_cell row col v)[col - 1]? = some v := by
  unfold ws_set_cell
  rw [List.getElem?_set_self]
  simp
  omega

lemma ws_set_cell_get_other (row : List (Option String)) (col : Nat)
    (v : Option String) (j : Nat) (hj : j < row.length) (hne : j ≠ col - 1) :
    (ws_set_cell row col v)[j]? = row[j]? := by
  unfold ws_set_cell
  rw [List.getElem?_set_ne (by omega)]
  rw [List.getElem?_append, if_pos hj]

lemma ws_set_cell_get_pad (row : List (Option String)) (col : Nat)
    (v : Option String) (j : Nat) (hj : row.length ≤ j) (hcol : j < col)
    (hne : j ≠ col - 1) :
    (ws_set_cell row col v)[j]? = some none := by
  unfold ws_set_cell
  rw [List.getElem?_set_ne (by omega)]
  rw [List.getElem?_append_right hj]
  rw [List.getElem?_replicate]
  simp
  omega

lemma buildRow_length_aux (ds : List (Nat × Option String)) :
    ∀ row : List (Option String),
      (ds.foldl (fun r d => ws_set_cell r d.1 d.2) row).length =
        ds.foldl (fun m d => max m d.1) row.length := by
  induction ds with
  | nil => intro row; rfl
  | cons d rest ih =>
      intro row
      simp only [List.foldl_cons]
      rw [ih, length_ws_set_cell]

lemma buildRow_length (ds : List (Nat × Option String)) :
    (buildRow ds).length = maxCol ds := buildRow_length_aux ds []

lemma foldl_max_ge_seed (l : List (Nat × Option String)) :
    ∀ a : Nat, a ≤ l.foldl (fun m x => max m x.1) a := by
  induction l with
  | nil => intro a; simp
  | cons x xs ihl =>
      intro a
      simp only [List.foldl_cons]
      exact le_trans (le_max_left _ _) (ihl _)

lemma foldl_max_mono (l : List (Nat × Option String)) :
    ∀ a b : Nat, a ≤ b →
      l.foldl (fun m x => max m x.1) a ≤ l.foldl (fun m x => max m x.1) b := by
  induction l with
  | nil => intro a b hab; simpa using hab
  | cons x xs ihl =>
      intro a b hab
      simp only [List.foldl_cons]
      exact ihl _ _ (max_le_max hab (le_refl _))

lemma maxCol_ge (ds : List (Nat × Option String)) (d : Nat × Option String)
    (hd : d ∈ ds) : d.1 ≤ maxCol ds := by
  unfold maxCol
  induction ds with
  | nil => simp at hd
  | cons e rest ih =>
      rcases List.mem_cons.mp hd with h | h
      · subst h
        simp only [List.foldl_cons]
        exact le_trans (le_max_right 0 d.1) (foldl_max_ge_seed rest _)
      · simp only [List.foldl_cons]
        exact le_trans (ih h) (foldl_max_mono rest _ _ (Nat.zero_le _))

/-- Gap invariant: a column index that no remaining declaration targets either
already holds an explicit null or lies beyond the row, and folding the
declarations preserves this. -/
lemma buildRow_gap_aux (ds : List (Nat × Option String)) :
    ∀ (row : List (Option String)) (i : Nat),
      (∀ d ∈ ds, 1 ≤ d.1) → (i + 1) ∉ ds.map Prod.fst →
      (row[i]? = some none ∨ row.length ≤ i) →
      ((ds.foldl (fun r d => ws_set_cell r d.1 d.2) row)[i]? = some none ∨
        (ds.foldl (fun r d => ws_set_cell r d.1 d.2) row).length ≤ i) := by
  induction ds with
  | nil => intro row i _ _ hrow; simpa using hrow
  | cons d rest ih =>
      intro row i hcols hnotin hrow
      have hd1 : 1 ≤ d.1 := hcols d (by simp)
      have hdne : d.1 ≠ i + 1 := by
        intro h
        exact hnotin (by simp [← h])
      simp only [List.foldl_cons]
      apply ih _ _ (fun e he => hcols e (by simp [he]))
        (fun h => hnotin (by simp at h ⊢; tauto))
      rcases hrow with hnull | hbeyond
      · left
        have hi : i < row.length := by
          by_contra hge
          rw [List.getElem?_eq_none (by omega)] at hnull
          exact Option.noConfusion hnull
        rw [ws_set_cell_get_other row d.1 d.2 i hi (by omega)]
        exact hnull
      · by_cases hic : i < d.1
        · left
          exact ws_set_cell_get_pad row d.1 d.2 i hbeyond hic (by omega)
        · right
          rw [length_ws_set_cell]
          omega

/-- Every undeclared column index below the row's declared maximum is present
in the reconstructed row as an explicit null cell. -/
lemma buildRow_gap (ds : List (Nat × Option String))
    (hcols : ∀ d ∈ ds, 1 ≤ d.1) (i : Nat) (hi : i < maxCol ds)
    (hnotin : (i + 1) ∉ ds.map Prod.fst) :
    (buildRow ds)[i]? = some none := by
  have := buildRow_gap_aux ds [] i hcols hnotin (by right; simp)
  rcases this with h | h
  · exact h
  · have h2 : maxCol ds ≤ i := by
      rw [← buildRow_length]
      exact h
    omega

/-- Setting a different column preserves an already-set cell. -/
lemma foldl_preserve_get (ds : List (Nat × Option String)) :
    ∀ (row : List (Option String)) (c : Nat) (v : Option String),
      (∀ d ∈ ds, 1 ≤ d.1) → c ∉ ds.map Prod.fst → 1 ≤ c → c ≤ row.length →
      row[c - 1]? = some v →
      (ds.foldl (fun r d => ws_set_cell r d.1 d.2) row)[c - 1]? = some v := by
  induction ds with
  | nil => intro row c v _ _ _ _ h; simpa using h
  | cons d rest ih =>
      intro row c v hcols hnotin hc hcle hget
      have hd1 : 1 ≤ d.1 := hcols d (by simp)
      have hdne : d.1 ≠ c := by
        intro h
        exact hnotin (by simp [← h])
      simp only [List.foldl_cons]
      apply ih _ _ _ (fun e he => hcols e (by simp [he]))
        (fun h => hnotin (by simp at h ⊢; tauto)) hc
      · rw [length_ws_set_cell]
        omega
      · rw [ws_set_cell_get_other row d.1 d.2 (c - 1) (by omega) (by omega)]
        exact hget

lemma mem_of_getLast?_eq {α : Type} {l : List α} {a : α}
    (h : l.getLast? = some a) : a ∈ l := by
  induction l with
  | nil => simp at h
  | cons x xs ih =>
      cases xs with
      | nil =>
          simp [List.getLast?] at h
          simp [h]
      | cons y ys =>
          rw [List.getLast?_cons_cons] at h
          simp [ih h]

/-- Last-write-wins over a full declaration list: the reconstructed cell at a
column equals the value of the last declaration targeting that column. -/
lemma buildRow_last_write (ds : List (Nat × Option String))
    (hcols : ∀ d ∈ ds, 1 ≤ d.1) (c : Nat) (v : Option String)
    (hlast : (ds.filter (fun d => d.1 = c)).getLast? = some (c, v)) :
    (buildRow ds)[c - 1]? = some v := by
  induction ds using List.reverseRecOn with
  | nil => simp at hlast
  | append_singleton ds d ih =>
      have hd1 : 1 ≤ d.1 := hcols d (by simp)
      rw [List.filter_append] at hlast
      unfold buildRow
      rw [List.foldl_append]
      simp only [List.foldl_cons, List.foldl_nil]
      by_cases hdc : d.1 = c
      · have : (List.filter (fun d => decide (d.1 = c)) [d]) = [d] := by
          simp [List.filter, hdc]
        rw [this, List.getLast?_concat] at hlast
        have hd : d = (c, v) := by
          injection hlast with h
        subst hd
        exact ws_set_cell_get_self _ _ _ hd1
      · have : (List.filter (fun d => decide (d.1 = c)) [d]) = [] := by
          simp [List.filter, hdc]
        rw [this, List.append_nil] at hlast
        have hmem : (c, v) ∈ ds := List.mem_of_mem_filter (mem_of_getLast?_eq hlast)
        have hc1 : 1 ≤ c := hcols (c, v) (by simp [hmem])
        have hlen : c ≤ (buildRow ds).length := by
          rw [buildRow_length]
          exact maxCol_ge ds (c, v) hmem
        unfold buildRow at hlen
        have hprev := ih (fun e he => hcols e (by simp [he])) hlast
        rw [ws_set_cell_get_other _ d.1 d.2 (c - 1) (by omega) (by omega)]
        exact hprev

lemma p1_store_get_self (rowbuf : List (Option String)) (colidx : Nat)
    (val : String) :
    (p1_store rowbuf colidx val)[colidx]? = some (some val) := by
  unfold p1_store
  rw [List.getElem?_set_self]
  simp
  omega

lemma p1_store_pos_length (rowbuf : List (Option String)) (colidx : Nat)
    (val : String) : 0 < (p1_store rowbuf colidx val).length := by
  unfold p1_store
  simp
  omega

/-! ## Claim theorems: grid reconstruction and column arithmetic -/

/-- **C1**: Grid reconstruction fills gaps with explicit nulls: for every
parsed worksheet row (a list of declared cells with 1-based columns), every
column index from 0 up to the row's maximum declared column index minus 1 that
was not declared is present in the reconstructed row as an explicit null cell
(the reconstructed row has exactly `maxCol` cells, so no index is silently
absent); in particular a row declaring only columns 1 and 4 yields the 4-cell
row `[value1, Null, Null, value4]`. -/
theorem claim_C1 (ds : List (Nat × Option String)) (hcols : ∀ d ∈ ds, 1 ≤ d.1) :
    (buildRow ds).length = maxCol ds ∧
    (∀ i < maxCol ds, (i + 1) ∉ ds.map Prod.fst → (buildRow ds)[i]? = some none) ∧
    buildRow [(1, some "value1"), (4, some "value4")] =
      [some "value1", none, none, some "value4"] :=
  ⟨buildRow_length ds, fun i hi hn => buildRow_gap ds hcols i hi hn, by rfl⟩

/-- Witness for C1 at the row declaring only columns 1 and 4. -/
theorem claim_C1_witness :
    (buildRow [(1, some "value1"), (4, some "value4")]).length =
        maxCol [(1, some "value1"), (4, some "value4")] ∧
      (∀ i < maxCol [(1, some "value1"), (4, some "value4")],
        (i + 1) ∉ [(1, some "value1"), (4, some "value4")].map Prod.fst →
          (buildRow [(1, some "value1"), (4, some "value4")])[i]? = some none) ∧
      buildRow [(1, some "value1"), (4, some "value4")] =
        [some "value1", none, none, some "value4"] :=
  claim_C1 [(1, some "value1"), (4, some "value4")] (by decide)

/-- **C2**: Column-letter arithmetic is a correct bijective
base-26-without-zero encoding: for every `n` in `[1, 16384]`, decoding the
letter sequence produced by the encoder yields `n` again, with the spot values
Z=26, AA=27, AZ=52, BA=53, ZZ=702, AAA=703, where each letter contributes
`value*26 + (letter-'A'+1)`. -/
theorem claim_C2 (n : Nat) (h1 : 1 ≤ n) (h2 : n ≤ 16384) :
    col_to_num (col_to_letters n) = n ∧
    col_to_num ['Z'] = 26 ∧ col_to_num ['A', 'A'] = 27 ∧
    col_to_num ['A', 'Z'] = 52 ∧ col_to_num ['B', 'A'] = 53 ∧
    col_to_num ['Z', 'Z'] = 702 ∧ col_to_num ['A', 'A', 'A'] = 703 :=
  ⟨col_to_num_col_to_letters n, by decide, by decide, by decide, by decide,
   by decide, by decide⟩

/-- Witness for C2 at `n = 703` (the AAA spot value). -/
theorem claim_C2_witness :
    col_to_num (col_to_letters 703) = 703 ∧
    col_to_num ['Z'] = 26 ∧ col_to_num ['A', 'A'] = 27 ∧
    col_to_num ['A', 'Z'] = 52 ∧ col_to_num ['B', 'A'] = 53 ∧
    col_to_num ['Z', 'Z'] = 702 ∧ col_to_num ['A', 'A', 'A'] = 703 :=
  claim_C2 703 (by decide) (by decide)

/-- **C9** (implicit): cell-reference handling in the part_001 grid
reconstructor is total — for every declared cell whose reference yields no
valid leading column letters (the column decoder returns a negative index),
the importer clamps the cell to column index 0 and stores its value there: the
stored row has a cell at index 0 holding the value, and the access is in
bounds (the row is non-empty), with no per-cell failure (all functions
involved are total). -/
theorem claim_C9 (ref : List Char) (rowbuf : List (Option String))
    (val : String) (h : colname_to_index (cell_ref_letters ref) < 0) :
    p1_colidx ref = 0 ∧
    (p1_store rowbuf (p1_colidx ref) val)[0]? = some (some val) ∧
    0 < (p1_store rowbuf (p1_colidx ref) val).length := by
  have h0 : p1_colidx ref = 0 := by
    simp only [p1_colidx]
    rw [if_pos h]
  refine ⟨h0, ?_, ?_⟩
  · rw [h0]
    exact p1_store_get_self rowbuf 0 val
  · exact p1_store_pos_length rowbuf _ val

/-- Witness for C9 at the letterless reference `"123"`. -/
theorem claim_C9_witness :
    colname_to_index (cell_ref_letters ['1', '2', '3']) < 0 ∧
    (p1_colidx ['1', '2', '3'] = 0 ∧
      (p1_store [] (p1_colidx ['1', '2', '3']) "x")[0]? = some (some "x") ∧
      0 < (p1_store [] (p1_colidx ['1', '2', '3']) "x").length) :=
  ⟨by decide, claim_C9 ['1', '2', '3'] [] "x" (by decide)⟩

/-- **C10** (implicit): duplicate cell declarations resolve last-write-wins —
for every parsed row, if declared cells resolve to the same column, the
reconstructed grid holds exactly the value of the last such declaration in
document order (stated over the opus `ws_set_cell` fold; the part_001
`rowbuf[colidx]` overwrite is the second conjunct). -/
theorem claim_C10 (ds : List (Nat × Option String))
    (hcols : ∀ d ∈ ds, 1 ≤ d.1) (c : Nat) (v : Option String)
    (hlast : (ds.filter (fun d => d.1 = c)).getLast? = some (c, v)) :
    (buildRow ds)[c - 1]? = some v ∧
    (∀ (rowbuf : List (Option String)) (colidx : Nat) (v1 v2 : String),
      (p1_store (p1_store rowbuf colidx v1) colidx v2)[colidx]? =
        some (some v2)) :=
  ⟨buildRow_last_write ds hcols c v hlast,
   fun rowbuf colidx _ v2 => p1_store_get_self _ colidx v2⟩

/-- Witness for C10 at a row declaring column 2 twice. -/
theorem claim_C10_witness :
    (buildRow [(2, some "a"), (2, some "b")])[2 - 1]? = some (some "b") ∧
    (∀ (rowbuf : List (Option String)) (colidx : Nat) (v1 v2 : String),
      (p1_store (p1_store rowbuf colidx v1) colidx v2)[colidx]? =
        some (some v2)) :=
  claim_C10 [(2, some "a"), (2, some "b")] (by decide) 2 (some "b") (by decide)

/-! ## Shared-string interning lemmas -/

lemma sst_find_none_iff (pool : List String) (t : String) :
    sst_find pool t = none ↔ t ∉ pool := by
  induction pool with
  | nil => simp [sst_find]
  | cons x rest ih =>
      by_cases hx : x = t
      · simp [sst_find, hx]
      · simp [sst_find, hx, ih]
        intro h
        exact fun he => hx he.symm

lemma sst_find_get (pool : List String) (t : String) (i : Nat)
    (h : sst_find pool t = some i) : pool[i]? = some t := by
  induction pool generalizing i with
  | nil => simp [sst_find] at h
  | cons x rest ih =>
      by_cases hx : x = t
      · simp [sst_find, hx] at h
        simp [← h, hx]
      · simp [sst_find, hx] at h
        rcases h with ⟨j, hj, hji⟩
        rw [← hji]
        simpa using ih j hj

lemma sst_find_append_self (pool : List String) (t : String)
    (h : sst_find pool t = none) :
    sst_find (pool ++ [t]) t = some pool.length := by
  induction pool with
  | nil => simp [sst_find]
  | cons x rest ih =>
      by_cases hx : x = t
      · simp [sst_find, hx] at h
      · simp [sst_find, hx] at h ⊢
        exact ih h

lemma sst_index_get (pool : List String) (t : String) :
    (sst_index pool t).2[(sst_index pool t).1]? = some t := by
  unfold sst_index
  cases hf : sst_find pool t with
  | some i =>
      simpa using sst_find_get pool t i hf
  | none =>
      simp only []
      rw [List.getElem?_append_right (le_refl _)]
      simp

/-- **C4**: Shared-string interning is idempotent and injective on distinct
texts: interning a text already present returns an index holding that text
without growing the pool; interning the same text twice returns the same index
(and pool) both times; interning two distinct texts in sequence returns two
distinct indices. -/
theorem claim_C4 (pool : List String) (t t' : String) (hne : t ≠ t') :
    (t ∈ pool →
      (sst_index pool t).2 = pool ∧ pool[(sst_index pool t).1]? = some t) ∧
    sst_index (sst_index pool t).2 t = sst_index pool t ∧
    (sst_index (sst_index pool t).2 t').1 ≠ (sst_index pool t).1 := by
  refine ⟨?_, ?_, ?_⟩
  · intro hmem
    have hf : sst_find pool t ≠ none := fun hn =>
      ((sst_find_none_iff pool t).mp hn) hmem
    cases hfe : sst_find pool t with
    | none => exact absurd hfe hf
    | some i =>
        constructor
        · simp [sst_index, hfe]
        · have := sst_index_get pool t
          simpa [sst_index, hfe] using this
  · cases hfe : sst_find pool t with
    | some i => simp [sst_index, hfe]
    | none =>
        have h2 := sst_find_append_self pool t hfe
        simp [sst_index, hfe, h2]
  · have hget := sst_index_get pool t
    rcases hsi : sst_index pool t with ⟨i1, p1⟩
    rw [hsi] at hget
    have hget : p1[i1]? = some t := hget
    simp only []
    cases hfe2 : sst_find p1 t' with
    | some i2 =>
        have hget2 := sst_find_get _ _ _ hfe2
        simp only [sst_index, hfe2]
        intro heq
        simp only [heq] at hget2
        rw [hget] at hget2
        exact hne (by injection hget2)
    | none =>
        simp only [sst_index, hfe2]
        have hlt : i1 < p1.length := by
          by_contra hge
          rw [List.getElem?_eq_none (by omega)] at hget
          exact Option.noConfusion hget
        omega

/-- Witness for C4 with pool `["a"]`, texts `"b"` and `"c"`. -/
theorem claim_C4_witness :
    ("b" ∈ ["a"] →
      (sst_index ["a"] "b").2 = ["a"] ∧
        ["a"][(sst_index ["a"] "b").1]? = some "b") ∧
    sst_index (sst_index ["a"] "b").2 "b" = sst_index ["a"] "b" ∧
    (sst_index (sst_index ["a"] "b").2 "c").1 ≠ (sst_index ["a"] "b").1 :=
  claim_C4 ["a"] "b" "c" (by decide)

/-! ## Shared-string out-of-range resolution (C5) -/

/-- **C5 counterexample**: the claim states that an out-of-range shared-string
index makes the cell's stored value the *empty string*.  In the opus importer
(`ws_end_element`, lines 483-503) the value stays `NULL` instead: with pool
`["x"]` and declared index 5 the computed value is `none`, not `some ""`, and
`ws_set_cell` stores an explicit null cell. -/
theorem claim_C5_counterexample :
    opus_cell_value ["x"] 's' ['5'] = none ∧
    opus_cell_value ["x"] 's' ['5'] ≠ some "" ∧
    ws_set_cell [] 1 (opus_cell_value ["x"] 's' ['5']) = [none] := by
  decide

/-- **C5 (amended)**: for every imported cell of shared-string type whose
declared index is not a valid pool index, the importer recovers without
aborting: the part_001 importer stores the empty string for the cell, while
the opus importer stores a null cell; in both cases the cell remains present
at its position and sheet import continues (the per-cell computation is
total). -/
theorem claim_C5_amended (shared : List String) (text : List Char)
    (row : List (Option String)) (col : Nat)
    (htext : 0 < text.length)
    (hoor : ¬ (0 ≤ atoi text ∧ atoi text < (shared.length : Int)))
    (hcol : 1 ≤ col) :
    p1_cell_value shared ['s'] text = "" ∧
    opus_cell_value shared 's' text = none ∧
    (ws_set_cell row col (opus_cell_value shared 's' text))[col - 1]? =
      some none ∧
    (p1_store row (col - 1) (p1_cell_value shared ['s'] text))[col - 1]? =
      some (some "") := by
  have hp1 : p1_cell_value shared ['s'] text = "" := by
    unfold p1_cell_value
    rw [if_pos ⟨rfl, htext⟩, if_neg hoor]
  have hop : opus_cell_value shared 's' text = none := by
    unfold opus_cell_value
    rw [if_pos rfl, if_neg hoor]
  refine ⟨hp1, hop, ?_, ?_⟩
  · rw [hop]
    exact ws_set_cell_get_self row col none hcol
  · rw [hp1]
    exact p1_store_get_self row (col - 1) ""

/-- Witness for the amended C5 at pool `["x"]`, declared index `5`, column 1. -/
theorem claim_C5_amended_witness :
    (0 < (['5'] : List Char).length ∧
      ¬ (0 ≤ atoi ['5'] ∧ atoi ['5'] < ((["x"] : List String).length : Int)) ∧
      (1 : Nat) ≤ 1) ∧
    (p1_cell_value ["x"] ['s'] ['5'] = "" ∧
      opus_cell_value ["x"] 's' ['5'] = none ∧
      (ws_set_cell [] 1 (opus_cell_value ["x"] 's' ['5']))[1 - 1]? = some none ∧
      (p1_store [] (1 - 1) (p1_cell_value ["x"] ['s'] ['5']))[1 - 1]? =
        some (some "")) :=
  ⟨⟨by decide, by decide, by decide⟩,
   claim_C5_amended ["x"] ['5'] [] 1 (by decide) (by decide) (by decide)⟩

/-! ## Import selector semantics (C6) -/

/-- **C6 counterexample**: the claim states that an integer selector falls
back to the manifest's declared id.  In the `should_import` importer variant
(lines 2012-2027 of the second importer in `src/opus/xlsximport.c`) the
declared id is never consulted: for a workbook whose second sheet (index 1)
has declared id 5, the integer selector 5 selects nothing, while the part_001
`should_import_sheet` does match it by id. -/
theorem claim_C6_counterexample :
    should_import [SqlArg.intv 5] 1 "Data" = false ∧
    should_import_sheet ["First", "Data"] 1 5 [some "5"] = true := by
  decide

/-- **C6 (amended)**: with no selectors every sheet is imported (both
variants); in part_001 an integer-shaped selector matches a sheet iff it
equals the declared sheetId or the 1-based manifest position, and a text
selector matches only by exact, case-sensitive display-name equality; in the
`should_import` variant an integer selector matches only the 1-based position
(the declared id is ignored) and a text selector matches only the exact name;
a selector matching no sheet is silently a no-op — the import returns a
normal 0-table result, not an error. -/
theorem claim_C6_amended :
    (∀ (names : List String) (si : Nat) (id : Int),
        should_import_sheet names si id [] = true) ∧
    (∀ (names : List String) (si : Nat) (id : Int) (sel : String),
        is_integer_string sel.toList = true →
        (should_import_sheet names si id [some sel] = true ↔
          (atoi sel.toList = id ∨ atoi sel.toList = (si : Int) + 1))) ∧
    (∀ (names : List String) (si : Nat) (id : Int) (sel : String),
        is_integer_string sel.toList = false →
        (should_import_sheet names si id [some sel] = true ↔
          names[si]? = some sel)) ∧
    (∀ (idx : Nat) (name : String), should_import [] idx name = true) ∧
    (∀ (i : Int) (idx : Nat) (name : String),
        (should_import [SqlArg.intv i] idx name = true ↔ i = (idx : Int) + 1)) ∧
    (∀ (s : String) (idx : Nat) (name : String),
        (should_import [SqlArg.textv s] idx name = true ↔ s = name)) ∧
    import_xlsx_to_db [("xl/workbook.xml", "wb")] [some "Nope"]
        (fun _ => [⟨"A", 1⟩]) = Except.ok 0 := by
  refine ⟨?_, ?_, ?_, ?_, ?_, ?_, ?_⟩
  · intro names si id
    simp [should_import_sheet]
  · intro names si id sel hint
    have hint2 : is_integer_string sel.data = true := hint
    simp [should_import_sheet, sel_matches_p1, hint2]
  · intro names si id sel hint
    have hint2 : is_integer_string sel.data = false := hint
    simp only [should_import_sheet, sel_matches_p1, hint2]
    cases hg : names[si]? with
    | none => simp [hg, hint2]
    | some nm => simp [hg, hint2]
  · intro idx name
    simp [should_import]
  · intro i idx name
    simp [should_import]
  · intro s idx name
    simp [should_import]
  · rfl

/-- Witness for the amended C6: the part_001 integer selector `"2"` matches
the second sheet by position even though its declared id is 5. -/
theorem claim_C6_amended_witness :
    is_integer_string ("2".toList) = true ∧
    (should_import_sheet ["First", "Data"] 1 5 [some "2"] = true ↔
      (atoi ("2".toList) = 5 ∨ atoi ("2".toList) = ((1 : Nat) : Int) + 1)) :=
  ⟨by decide, claim_C6_amended.2.1 ["First", "Data"] 1 5 "2" (by decide)⟩

/-! ## Sheet-name sanitization lemmas (C7) -/

lemma natDigitsAux_isDigit (fuel : Nat) :
    ∀ (n : Nat), ∀ c ∈ natDigitsAux fuel n, c.isDigit = true := by
  have digit10 : ∀ m : Nat, m < 10 → (Char.ofNat (48 + m)).isDigit = true := by
    decide
  induction fuel with
  | zero => intro n c hc; simp [natDigitsAux] at hc
  | succ f ih =>
      intro n c hc
      by_cases h : n < 10
      · rw [natDigitsAux, if_pos h] at hc
        simp at hc
        subst hc
        exact digit10 n h
      · rw [natDigitsAux, if_neg h] at hc
        rcases List.mem_append.mp hc with h1 | h2
        · exact ih (n / 10) c h1
        · simp at h2
          subst h2
          exact digit10 _ (Nat.mod_lt _ (by omega))

lemma natDigits_isDigit (n : Nat) : ∀ c ∈ natDigits n, c.isDigit = true :=
  natDigitsAux_isDigit n n

lemma isDigit_not_forbidden (c : Char) (h : c.isDigit = true) :
    excel_forbidden c = false := by
  by_cases h1 : c = ':'
  · rw [h1] at h; exact absurd h (by decide)
  by_cases h2 : c = Char.ofNat 92
  · rw [h2] at h; exact absurd h (by decide)
  by_cases h3 : c = '/'
  · rw [h3] at h; exact absurd h (by decide)
  by_cases h4 : c = '?'
  · rw [h4] at h; exact absurd h (by decide)
  by_cases h5 : c = '*'
  · rw [h5] at h; exact absurd h (by decide)
  by_cases h6 : c = '['
  · rw [h6] at h; exact absurd h (by decide)
  by_cases h7 : c = ']'
  · rw [h7] at h; exact absurd h (by decide)
  simp [excel_forbidden, h1, h2, h3, h4, h5, h6, h7]

lemma drop_lead_quote_subset (s : List Char) :
    ∀ c ∈ drop_lead_quote s, c ∈ s := by
  intro c hc
  cases s with
  | nil => simpa [drop_lead_quote] using hc
  | cons a rest =>
      by_cases ha : a = Char.ofNat 39
      · simp only [drop_lead_quote, if_pos ha] at hc
        exact List.mem_cons_of_mem a hc
      · simp only [drop_lead_quote, if_neg ha] at hc
        exact hc

lemma drop_trail_quote_subset (s : List Char) :
    ∀ c ∈ drop_trail_quote s, c ∈ s := by
  intro c hc
  unfold drop_trail_quote at hc
  cases hl : s.getLast? with
  | none => simp only [hl] at hc; exact hc
  | some d =>
      simp only [hl] at hc
      by_cases hd : d = Char.ofNat 39
      · rw [if_pos hd] at hc
        exact List.dropLast_subset _ hc
      · rw [if_neg hd] at hc
        exact hc

lemma cp_strip_quotes_subset (s : List Char) :
    ∀ c ∈ cp_strip_quotes s, c ∈ s := by
  intro c hc
  exact drop_lead_quote_subset s c
    (drop_trail_quote_subset (drop_lead_quote s) c hc)

lemma cp_sanitize_base_length (name : List Char) (idx : Nat) :
    (cp_sanitize_base name idx).length ≤ 31 := by
  unfold cp_sanitize_base
  exact le_trans (List.length_take_le _ _) (le_refl _)

lemma cp_sanitize_base_not_forbidden (name : List Char) (idx : Nat) :
    ∀ c ∈ cp_sanitize_base name idx, excel_forbidden c = false := by
  intro c hc
  unfold cp_sanitize_base at hc
  have hc2 := List.take_subset _ _ hc
  by_cases he :
      (cp_strip_quotes ((trim_ws name).filter (fun c => ¬ excel_forbidden c))).isEmpty
  · rw [if_pos he] at hc2
    rcases List.mem_cons.mp hc2 with h | h
    · subst h; decide
    rcases List.mem_cons.mp h with h | h
    · subst h; decide
    rcases List.mem_cons.mp h with h | h
    · subst h; decide
    rcases List.mem_cons.mp h with h | h
    · subst h; decide
    rcases List.mem_cons.mp h with h | h
    · subst h; decide
    · exact isDigit_not_forbidden c (natDigits_isDigit _ c h)
  · rw [if_neg he] at hc2
    have hmem := cp_strip_quotes_subset _ c hc2
    have := List.of_mem_filter hmem
    simpa using this

lemma cp_uniq_not_mem :
    ∀ (fuel : Nat) (existing : List (List Char)) (t : List Char) (suffix : Nat)
      (r : List Char), cp_uniq existing t suffix fuel = some r → r ∉ existing := by
  intro fuel
  induction fuel with
  | zero => intro existing t suffix r h; simp [cp_uniq] at h
  | succ f ih =>
      intro existing t suffix r h
      unfold cp_uniq at h
      by_cases hcon : existing.contains t
      · rw [if_pos hcon] at h
        exact ih existing _ _ r h
      · rw [if_neg hcon] at h
        injection h with h
        subst h
        simpa using hcon

lemma cp_uniq_length :
    ∀ (fuel : Nat) (existing : List (List Char)) (t : List Char) (suffix : Nat)
      (r : List Char), t.length ≤ 31 → cp_uniq existing t suffix fuel = some r →
      r.length ≤ 31 := by
  intro fuel
  induction fuel with
  | zero => intro existing t suffix r _ h; simp [cp_uniq] at h
  | succ f ih =>
      intro existing t suffix r ht h
      unfold cp_uniq at h
      by_cases hcon : existing.contains t
      · rw [if_pos hcon] at h
        exact ih existing _ _ r (le_trans (List.length_take_le _ _) (le_refl _)) h
      · rw [if_neg hcon] at h
        injection h with h
        subst h
        exact ht

lemma cp_sheet_names_go_pairwise :
    ∀ (rest : List (List Char)) (idx : Nat) (acc : List (List Char))
      (fuel : Nat) (res : List (List Char)),
      acc.Pairwise (· ≠ ·) → cp_sheet_names_go rest idx acc fuel = some res →
      res.Pairwise (· ≠ ·) := by
  intro rest
  induction rest with
  | nil =>
      intro idx acc fuel res hacc h
      simp [cp_sheet_names_go] at h
      rw [← h]
      exact hacc
  | cons t ts ih =>
      intro idx acc fuel res hacc h
      unfold cp_sheet_names_go at h
      cases hu : cp_sanitize_sheet_name acc t idx fuel with
      | none => rw [hu] at h; exact absurd h (by simp)
      | some nm =>
          rw [hu] at h
          have hnot : nm ∉ acc := cp_uniq_not_mem fuel acc _ 1 nm hu
          apply ih (idx + 1) (acc ++ [nm]) fuel res _ h
          rw [List.pairwise_append]
          refine ⟨hacc, by simp, ?_⟩
          intro a ha b hb
          simp at hb
          subst hb
          intro heq
          rw [heq] at ha
          exact hnot ha

/-- **C7 counterexample**: the claim states that colliding names are
disambiguated with a suffix so that sheet names are pairwise distinct.  The
part_002 exporter derives each sheet name independently with its
`sanitize_sheet_name` (strip forbidden characters, truncate to 31) and has no
disambiguation: two tables named `Data` both yield sheet name `Data`, a
collision. -/
theorem claim_C7_counterexample :
    ([ "Data".toList, "Data".toList ].map p2_sanitize) =
      ["Data".toList, "Data".toList] ∧
    ¬ ([ "Data".toList, "Data".toList ].map p2_sanitize).Pairwise (· ≠ ·) := by
  constructor
  · decide
  · intro h
    rw [show ([ "Data".toList, "Data".toList ].map p2_sanitize) =
        ["Data".toList, "Data".toList] by decide] at h
    have := (List.pairwise_cons.mp h).1 ("Data".toList) (by simp)
    exact this rfl

/-- **C7 (amended)**: in the copilot exporter, for every table name the
derived sheet name has the forbidden characters `: \\ / ? * [ ]` stripped, at
most one leading and one trailing apostrophe removed, is replaced by the
placeholder `Sheet(idx+1)` when the stripped result is empty, is at most 31
characters, and colliding names are disambiguated with a parenthesized
numeric suffix re-truncated to the 31-character bound; whenever the
uniquification loop returns, its result differs from every existing name, so
the sheet names of one exported workbook are pairwise distinct (input
`Sales/Q1:2024[final]` yields `SalesQ12024final`; two tables named `Data`
yield `Data` and `Data (1)`).  The part_002 exporter instead only strips the
forbidden characters and truncates to 31 characters, with no apostrophe
handling, no placeholder and no collision disambiguation. -/
theorem claim_C7_amended :
    (∀ (name : List Char) (idx : Nat), (cp_sanitize_base name idx).length ≤ 31) ∧
    (∀ (name : List Char) (idx : Nat) (c : Char),
        c ∈ cp_sanitize_base name idx → excel_forbidden c = false) ∧
    (∀ (existing : List (List Char)) (t : List Char) (suffix fuel : Nat)
        (r : List Char), cp_uniq existing t suffix fuel = some r →
        r ∉ existing ∧ (t.length ≤ 31 → r.length ≤ 31)) ∧
    (∀ (tables : List (List Char)) (fuel : Nat) (res : List (List Char)),
        cp_sheet_names tables fuel = some res → res.Pairwise (· ≠ ·)) ∧
    cp_sanitize_base ("Sales/Q1:2024[final]".toList) 0 =
      "SalesQ12024final".toList ∧
    cp_sheet_names ["Data".toList, "Data".toList] 2 =
      some ["Data".toList, "Data (1)".toList] ∧
    (∀ name : List Char, (p2_sanitize name).length ≤ 31) ∧
    (∀ (name : List Char) (c : Char),
        c ∈ p2_sanitize name → excel_forbidden c = false) ∧
    p2_sanitize ("Sales/Q1:2024[final]".toList) = "SalesQ12024final".toList := by
  refine ⟨cp_sanitize_base_length, cp_sanitize_base_not_forbidden, ?_, ?_, ?_, ?_,
    ?_, ?_, ?_⟩
  · intro existing t suffix fuel r h
    exact ⟨cp_uniq_not_mem fuel existing t suffix r h,
      fun ht => cp_uniq_length fuel existing t suffix r ht h⟩
  · intro tables fuel res h
    exact cp_sheet_names_go_pairwise tables 0 [] fuel res (by simp) h
  · decide
  · decide
  · intro name
    exact le_trans (List.length_take_le _ _) (le_refl _)
  · intro name c hc
    have := List.of_mem_filter (List.take_subset _ _ hc)
    simpa using this
  · decide

/-- Witness for the amended C7: uniquifying the second `Data` against the
first terminates with `Data (1)`, which is not among the existing names. -/
theorem claim_C7_amended_witness :
    cp_uniq ["Data".toList] ("Data".toList) 1 2 = some ("Data (1)".toList) ∧
    ("Data (1)".toList ∉ ["Data".toList] ∧
      (("Data".toList : List Char).length ≤ 31 →
        ("Data (1)".toList : List Char).length ≤ 31)) :=
  ⟨by decide,
   claim_C7_amended.2.2.1 ["Data".toList] ("Data".toList) 1 2
     ("Data (1)".toList) (by decide)⟩

/-! ## Import failure propagation (C8) -/

lemma import_count_foldl (archive : List (String × String))
    (selectors : List (Option String)) (names : List String) :
    ∀ (l : List (Nat × SheetEntry)) (cnt : Nat),
      l.foldl (fun cnt p =>
        if should_import_sheet names p.1 p.2.sheetId selectors then
          match read_entry archive (sheet_path_by_id p.2.sheetId) with
          | some _ => cnt + 1
          | none =>
              match read_entry archive (sheet_path_by_pos p.1) with
              | some _ => cnt + 1
              | none => cnt
        else cnt) cnt =
      cnt + l.countP (fun p =>
        should_import_sheet names p.1 p.2.sheetId selectors &&
          sheet_readable archive p.1 p.2) := by
  intro l
  induction l with
  | nil => intro cnt; simp
  | cons p rest ih =>
      intro cnt
      simp only [List.foldl_cons, List.countP_cons]
      by_cases hsel : should_import_sheet names p.1 p.2.sheetId selectors
      · cases h1 : read_entry archive (sheet_path_by_id p.2.sheetId) with
        | some v =>
            have hr : sheet_readable archive p.1 p.2 = true := by
              simp [sheet_readable, h1]
            rw [if_pos hsel, ih]
            simp [hsel, hr]
            ring
        | none =>
            cases h2 : read_entry archive (sheet_path_by_pos p.1) with
            | some v =>
                have hr : sheet_readable archive p.1 p.2 = true := by
                  simp [sheet_readable, h2]
                rw [if_pos hsel, ih]
                simp [hsel, hr]
                ring
            | none =>
                have hr : sheet_readable archive p.1 p.2 = false := by
                  simp [sheet_readable, h1, h2]
                rw [if_pos hsel, ih]
                simp [hsel, hr]
      · rw [if_neg hsel, ih]
        simp [hsel]

/-- **C8**: Import failure propagation: if the workbook manifest
(`xl/workbook.xml`) cannot be read from the archive, the whole import call
fails with an error; whereas when the manifest is present, the import returns
(without error) the count of exactly those selected sheets whose worksheet
stream is readable — every individual sheet whose stream is missing under
both its sheetId path and its positional fallback is skipped, the remaining
sheets are still processed, and the skipped sheet does not count toward the
returned table total. -/
theorem claim_C8 (archive : List (String × String))
    (selectors : List (Option String)) (parseWb : String → List SheetEntry)
    (wbuf : String) :
    (read_entry archive "xl/workbook.xml" = none →
      import_xlsx_to_db archive selectors parseWb =
        Except.error "xl/workbook.xml not found in archive (zipfile)") ∧
    (read_entry archive "xl/workbook.xml" = some wbuf →
      import_xlsx_to_db archive selectors parseWb =
        Except.ok ((parseWb wbuf).enum.countP (fun p =>
          should_import_sheet ((parseWb wbuf).map (fun e => e.name)) p.1
              p.2.sheetId selectors &&
            sheet_readable archive p.1 p.2))) := by
  constructor
  · intro hnone
    unfold import_xlsx_to_db
    rw [hnone]
  · intro hsome
    unfold import_xlsx_to_db
    rw [hsome]
    simp only []
    rw [import_count_foldl archive selectors _ ((parseWb wbuf).enum) 0]
    simp

/-- Witness for C8: an archive holding the manifest and only `sheet1.xml`;
of the two manifest sheets (ids 1 and 9) only the first is readable, so
the importer returns 1 and the unreadable sheet is not counted. -/
theorem claim_C8_witness :
    (read_entry [("xl/workbook.xml", "wb"), ("xl/worksheets/sheet1.xml", "s")]
        "xl/workbook.xml" = some "wb") ∧
    import_xlsx_to_db [("xl/workbook.xml", "wb"), ("xl/worksheets/sheet1.xml", "s")]
        [] (fun _ => [⟨"A", 1⟩, ⟨"B", 9⟩]) =
      Except.ok (([(⟨"A", 1⟩ : SheetEntry), ⟨"B", 9⟩].enum).countP (fun p =>
        should_import_sheet ["A", "B"] p.1 p.2.sheetId [] &&
          sheet_readable [("xl/workbook.xml", "wb"), ("xl/worksheets/sheet1.xml", "s")]
            p.1 p.2)) :=
  ⟨by decide,
   (claim_C8 [("xl/workbook.xml", "wb"), ("xl/worksheets/sheet1.xml", "s")] []
      (fun _ => [⟨"A", 1⟩, ⟨"B", 9⟩]) "wb").2 (by decide)⟩

/-! ## Export truncation lemmas (C3) -/

lemma note_truncation_count (w : ExportWarnings) (tbl : String) (rn c : Nat) :
    (note_truncation w tbl rn c).cells_truncated = w.cells_truncated + 1 := by
  unfold note_truncation
  dsimp only
  split <;> rfl

lemma note_truncation_first_of_pos (w : ExportWarnings) (tbl : String)
    (rn c : Nat) (h : 0 < w.cells_truncated) :
    (note_truncation w tbl rn c).first_truncated_table = w.first_truncated_table ∧
    (note_truncation w tbl rn c).first_truncated_row = w.first_truncated_row ∧
    (note_truncation w tbl rn c).first_truncated_col = w.first_truncated_col := by
  unfold note_truncation
  dsimp only
  rw [if_neg (by omega)]
  exact ⟨rfl, rfl, rfl⟩

lemma note_truncation_first_of_zero (w : ExportWarnings) (tbl : String)
    (rn c : Nat) (h : w.cells_truncated = 0) :
    (note_truncation w tbl rn c).first_truncated_table = tbl ∧
    (note_truncation w tbl rn c).first_truncated_row = rn ∧
    (note_truncation w tbl rn c).first_truncated_col = c := by
  unfold note_truncation
  dsimp only
  rw [if_pos (by omega)]
  exact ⟨rfl, rfl, rfl⟩

lemma emit_data_cell_w_of_not_trunc (tbl : String) (rn col : Nat)
    (v : SqlValue) (w : ExportWarnings) (h : truncating v = false) :
    (emit_data_cell tbl rn col v w).2 = w := by
  cases v with
  | intg i => rfl
  | flt s => rfl
  | text s =>
      have h2 : ¬ (EXCEL_MAX_CELL_SIZE < s.length) := by simpa [truncating] using h
      simp only [emit_data_cell]
      rw [if_neg (by omega)]
  | blob b =>
      have h2 : ¬ (EXCEL_MAX_CELL_SIZE < 2 * b.length) := by
        simpa [truncating] using h
      simp only [emit_data_cell]
      rw [if_neg (by omega)]
  | null => rfl

lemma emit_data_cell_w_of_trunc (tbl : String) (rn col : Nat)
    (v : SqlValue) (w : ExportWarnings) (h : truncating v = true) :
    (emit_data_cell tbl rn col v w).2 = note_truncation w tbl rn (col + 1) := by
  cases v with
  | intg i => simp [truncating] at h
  | flt s => simp [truncating] at h
  | text s =>
      have h2 : EXCEL_MAX_CELL_SIZE < s.length := by simpa [truncating] using h
      simp only [emit_data_cell]
      rw [if_pos (by omega)]
  | blob b =>
      have h2 : EXCEL_MAX_CELL_SIZE < 2 * b.length := by simpa [truncating] using h
      simp only [emit_data_cell]
      rw [if_pos (by omega)]
  | null => simp [truncating] at h

lemma emit_data_cell_count (tbl : String) (rn col : Nat) (v : SqlValue)
    (w : ExportWarnings) :
    (emit_data_cell tbl rn col v w).2.cells_truncated =
      w.cells_truncated + (if truncating v then 1 else 0) := by
  cases h : truncating v with
  | true =>
      rw [emit_data_cell_w_of_trunc tbl rn col v w h, note_truncation_count]
      simp
  | false =>
      rw [emit_data_cell_w_of_not_trunc tbl rn col v w h]
      simp

lemma emit_row_cells_count (tbl : String) (rn : Nat) :
    ∀ (vals : List SqlValue) (col : Nat) (w : ExportWarnings),
      (emit_row_cells tbl rn vals col w).2.cells_truncated =
        w.cells_truncated + vals.countP truncating := by
  intro vals
  induction vals with
  | nil => intro col w; simp [emit_row_cells]
  | cons v rest ih =>
      intro col w
      simp only [emit_row_cells]
      rw [ih, emit_data_cell_count, List.countP_cons]
      by_cases h : truncating v <;> simp [h] <;> omega

lemma emit_row_cells_preserve_first (tbl : String) (rn : Nat) :
    ∀ (vals : List SqlValue) (col : Nat) (w : ExportWarnings),
      0 < w.cells_truncated →
      (emit_row_cells tbl rn vals col w).2.first_truncated_table =
          w.first_truncated_table ∧
      (emit_row_cells tbl rn vals col w).2.first_truncated_row =
          w.first_truncated_row ∧
      (emit_row_cells tbl rn vals col w).2.first_truncated_col =
          w.first_truncated_col := by
  intro vals
  induction vals with
  | nil => intro col w _; exact ⟨rfl, rfl, rfl⟩
  | cons v rest ih =>
      intro col w hw
      simp only [emit_row_cells]
      have hcnt : 0 < (emit_data_cell tbl rn col v w).2.cells_truncated := by
        rw [emit_data_cell_count]
        omega
      have hrest := ih (col + 1) (emit_data_cell tbl rn col v w).2 hcnt
      cases h : truncating v with
      | true =>
          rw [emit_data_cell_w_of_trunc tbl rn col v w h] at hrest
          rw [emit_data_cell_w_of_trunc tbl rn col v w h]
          have hn := note_truncation_first_of_pos w tbl rn (col + 1) hw
          exact ⟨hrest.1.trans hn.1, hrest.2.1.trans hn.2.1,
            hrest.2.2.trans hn.2.2⟩
      | false =>
          rw [emit_data_cell_w_of_not_trunc tbl rn col v w h] at hrest
          rw [emit_data_cell_w_of_not_trunc tbl rn col v w h]
          exact hrest

lemma firstTruncCol_count_pos (vals : List SqlValue) (j : Nat)
    (h : firstTruncCol vals = some j) : 0 < vals.countP truncating := by
  induction vals generalizing j with
  | nil => simp [firstTruncCol] at h
  | cons v rest ih =>
      rw [List.countP_cons]
      by_cases hv : truncating v
      · simp [hv]
      · simp only [firstTruncCol] at h
        rw [if_neg (by simpa using hv)] at h
        rcases Option.map_eq_some'.mp h with ⟨j2, hj2, _⟩
        have := ih j2 hj2
        omega

lemma emit_row_cells_none (tbl : String) (rn : Nat) :
    ∀ (vals : List SqlValue) (col : Nat) (w : ExportWarnings),
      firstTruncCol vals = none → (emit_row_cells tbl rn vals col w).2 = w := by
  intro vals
  induction vals with
  | nil => intro col w _; rfl
  | cons v rest ih =>
      intro col w h
      simp only [firstTruncCol] at h
      by_cases hv : truncating v
      · rw [if_pos (by simpa using hv)] at h
        exact absurd h (by simp)
      · rw [if_neg (by simpa using hv)] at h
        simp only [emit_row_cells]
        rw [emit_data_cell_w_of_not_trunc tbl rn col v w (by simpa using hv)]
        exact ih (col + 1) w (by simpa using h)

lemma emit_row_cells_first (tbl : String) (rn : Nat) :
    ∀ (vals : List SqlValue) (col : Nat) (w : ExportWarnings) (j : Nat),
      w.cells_truncated = 0 → firstTruncCol vals = some j →
      (emit_row_cells tbl rn vals col w).2.first_truncated_table = tbl ∧
      (emit_row_cells tbl rn vals col w).2.first_truncated_row = rn ∧
      (emit_row_cells tbl rn vals col w).2.first_truncated_col = col + j + 1 := by
  intro vals
  induction vals with
  | nil => intro col w j _ h; simp [firstTruncCol] at h
  | cons v rest ih =>
      intro col w j hw h
      simp only [firstTruncCol] at h
      by_cases hv : truncating v
      · rw [if_pos (by simpa using hv)] at h
        injection h with h
        subst h
        simp only [emit_row_cells]
        rw [show (emit_data_cell tbl rn col v w).2 =
            note_truncation w tbl rn (col + 1) from
            emit_data_cell_w_of_trunc tbl rn col v w (by simpa using hv)]
        have hpos : 0 < (note_truncation w tbl rn (col + 1)).cells_truncated := by
          rw [note_truncation_count]
          omega
        have hpres := emit_row_cells_preserve_first tbl rn rest (col + 1)
          (note_truncation w tbl rn (col + 1)) hpos
        have hset := note_truncation_first_of_zero w tbl rn (col + 1) hw
        exact ⟨by rw [hpres.1, hset.1], by rw [hpres.2.1, hset.2.1],
          by rw [hpres.2.2, hset.2.2]⟩
      · rw [if_neg (by simpa using hv)] at h
        rcases Option.map_eq_some'.mp h with ⟨j2, hj2, hj⟩
        subst hj
        simp only [emit_row_cells]
        rw [emit_data_cell_w_of_not_trunc tbl rn col v w (by simpa using hv)]
        have := ih (col + 1) w j2 hw hj2
        refine ⟨this.1, this.2.1, ?_⟩
        rw [this.2.2]
        omega

lemma emit_data_rows_count (tbl : String) :
    ∀ (rows : List (List SqlValue)) (rn : Nat) (w : ExportWarnings),
      (emit_data_rows tbl rows rn w).2.cells_truncated =
        w.cells_truncated + countTrunc rows := by
  intro rows
  induction rows with
  | nil => intro rn w; simp [emit_data_rows, countTrunc]
  | cons r rest ih =>
      intro rn w
      simp only [emit_data_rows]
      rw [ih, emit_row_cells_count]
      simp [countTrunc]
      omega

lemma emit_data_rows_preserve_first (tbl : String) :
    ∀ (rows : List (List SqlValue)) (rn : Nat) (w : ExportWarnings),
      0 < w.cells_truncated →
      (emit_data_rows tbl rows rn w).2.first_truncated_table =
          w.first_truncated_table ∧
      (emit_data_rows tbl rows rn w).2.first_truncated_row =
          w.first_truncated_row ∧
      (emit_data_rows tbl rows rn w).2.first_truncated_col =
          w.first_truncated_col := by
  intro rows
  induction rows with
  | nil => intro rn w _; exact ⟨rfl, rfl, rfl⟩
  | cons r rest ih =>
      intro rn w hw
      simp only [emit_data_rows]
      have hcnt : 0 < (emit_row_cells tbl rn r 0 w).2.cells_truncated := by
        rw [emit_row_cells_count]
        omega
      have hrow := emit_row_cells_preserve_first tbl rn r 0 w hw
      have hrest := ih (rn + 1) (emit_row_cells tbl rn r 0 w).2 hcnt
      exact ⟨by rw [hrest.1, hrow.1], by rw [hrest.2.1, hrow.2.1],
        by rw [hrest.2.2, hrow.2.2]⟩

lemma emit_data_rows_first (tbl : String) :
    ∀ (rows : List (List SqlValue)) (rn : Nat) (w : ExportWarnings)
      (r c : Nat), w.cells_truncated = 0 → firstTruncPos rows = some (r, c) →
      (emit_data_rows tbl rows rn w).2.first_truncated_table = tbl ∧
      (emit_data_rows tbl rows rn w).2.first_truncated_row = rn + r ∧
      (emit_data_rows tbl rows rn w).2.first_truncated_col = c + 1 := by
  intro rows
  induction rows with
  | nil => intro rn w r c _ h; simp [firstTruncPos] at h
  | cons row rest ih =>
      intro rn w r c hw h
      simp only [firstTruncPos] at h
      cases hcol : firstTruncCol row with
      | some j =>
          rw [hcol] at h
          injection h with h
          injection h with h1 h2
          subst h1
          subst h2
          simp only [emit_data_rows]
          have hfirst := emit_row_cells_first tbl rn row 0 w j hw hcol
          have hpos : 0 < (emit_row_cells tbl rn row 0 w).2.cells_truncated := by
            rw [emit_row_cells_count]
            have := firstTruncCol_count_pos row j hcol
            omega
          have hpres := emit_data_rows_preserve_first tbl rest (rn + 1)
            (emit_row_cells tbl rn row 0 w).2 hpos
          refine ⟨by rw [hpres.1, hfirst.1], ?_, ?_⟩
          · rw [hpres.2.1, hfirst.2.1]
            omega
          · rw [hpres.2.2, hfirst.2.2]
            omega
      | none =>
          rw [hcol] at h
          rcases Option.map_eq_some'.mp h with ⟨p2, hp2, hp⟩
          simp only [emit_data_rows]
          rw [emit_row_cells_none tbl rn row 0 w hcol]
          have hres := ih (rn + 1) w p2.1 p2.2 hw hp2
          injection hp with hp1 hp2e
          subst hp1
          subst hp2e
          refine ⟨hres.1, ?_, hres.2.2⟩
          rw [hres.2.1]
          omega

/-! ## Claim C3: export cell-size limit -/

/-- **C3 counterexample**: the claim covers "every text value (header or
data)", but in the opus exporter the header row is emitted through
`xml_escape` alone (lines 1249-1258): a 40,000-character column name is
emitted in full — not as its first 32,767 characters — and no truncation
warning is recorded, refuting the claim for header values. -/
theorem claim_C3_counterexample :
    (gen_worksheet "t" [List.replicate 40000 'a'] [] ⟨0, 0, 0, ""⟩).headerTexts =
      [List.replicate 40000 'a'] ∧
    ((gen_worksheet "t" [List.replicate 40000 'a'] []
        ⟨0, 0, 0, ""⟩).headerTexts.headD []).length = 40000 ∧
    ¬ ((gen_worksheet "t" [List.replicate 40000 'a'] []
        ⟨0, 0, 0, ""⟩).headerTexts.headD []).length = 32767 ∧
    (gen_worksheet "t" [List.replicate 40000 'a'] []
        ⟨0, 0, 0, ""⟩).warnings.cells_truncated = 0 := by
  refine ⟨rfl, ?_, ?_, rfl⟩
  · rw [show (gen_worksheet "t" [List.replicate 40000 'a'] []
        ⟨0, 0, 0, ""⟩).headerTexts.headD [] = List.replicate 40000 'a' from rfl]
    exact List.length_replicate 40000 'a'
  · rw [show (gen_worksheet "t" [List.replicate 40000 'a'] []
        ⟨0, 0, 0, ""⟩).headerTexts.headD [] = List.replicate 40000 'a' from rfl]
    rw [List.length_replicate]
    omega

lemma emit_single_text_rows (tbl : String) (rn : Nat) (s : List Char)
    (w : ExportWarnings) (h : EXCEL_MAX_CELL_SIZE < s.length) :
    (emit_data_rows tbl [[SqlValue.text s]] rn w).1 =
      [[EmittedCell.inlineStr (s.take EXCEL_MAX_CELL_SIZE)]] := by
  simp only [emit_data_rows, emit_row_cells, emit_data_cell]
  rw [if_pos (show s.length > EXCEL_MAX_CELL_SIZE from h)]

lemma countTrunc_single (v : SqlValue) :
    countTrunc [[v]] = if truncating v then 1 else 0 := by
  simp [countTrunc, List.countP_cons]

lemma gen_worksheet_warnings (tbl : String) (cn : List (List Char))
    (rows : List (List SqlValue)) (w : ExportWarnings) :
    (gen_worksheet tbl cn rows w).warnings = (emit_data_rows tbl rows 2 w).2 :=
  rfl

lemma gen_worksheet_dataRows (tbl : String) (cn : List (List Char))
    (rows : List (List SqlValue)) (w : ExportWarnings) :
    (gen_worksheet tbl cn rows w).dataRows = (emit_data_rows tbl rows 2 w).1 :=
  rfl

lemma firstTruncPos_single (v : SqlValue) (h : truncating v = true) :
    firstTruncPos [[v]] = some (0, 0) := by
  have h1 : firstTruncCol [v] = some 0 := by
    unfold firstTruncCol
    rw [h]
    rfl
  unfold firstTruncPos
  rw [h1]

lemma truncating_big_replicate :
    truncating (SqlValue.text (List.replicate 40000 'a')) = true := by
  simp only [truncating, decide_eq_true_eq, List.length_replicate]
  norm_num [EXCEL_MAX_CELL_SIZE]

/-- **C3 (amended)**: for every *data* text value longer than 32,767
characters, the opus exporter emits exactly the first 32,767 characters (a
data value of 40,000 'a' characters is emitted as exactly 32,767 'a'
characters), and the export reports exactly one truncated-cell warning per
truncated data cell — the final count equals the number of truncating data
cells, and the recorded first occurrence is the (table, row, column) of the
first truncating cell in scan order — as a non-fatal warning (the export
result is always a success value, never an error); header texts, by contrast,
are emitted unmodified with no truncation and no warning. -/
theorem claim_C3_amended (tbl : String) (colnames : List (List Char))
    (rows : List (List SqlValue)) (filename : String) :
    (∀ (rn col : Nat) (s : List Char) (w : ExportWarnings),
        EXCEL_MAX_CELL_SIZE < s.length →
        (emit_data_cell tbl rn col (SqlValue.text s) w).1 =
          EmittedCell.inlineStr (s.take EXCEL_MAX_CELL_SIZE)) ∧
    (gen_worksheet tbl colnames rows ⟨0, 0, 0, ""⟩).warnings.cells_truncated =
      countTrunc rows ∧
    (∀ r c : Nat, firstTruncPos rows = some (r, c) →
        (gen_worksheet tbl colnames rows
            ⟨0, 0, 0, ""⟩).warnings.first_truncated_table = tbl ∧
        (gen_worksheet tbl colnames rows
            ⟨0, 0, 0, ""⟩).warnings.first_truncated_row = 2 + r ∧
        (gen_worksheet tbl colnames rows
            ⟨0, 0, 0, ""⟩).warnings.first_truncated_col = c + 1) ∧
    (gen_worksheet tbl colnames rows ⟨0, 0, 0, ""⟩).headerTexts = colnames ∧
    (∃ res, xlsx_export_result filename
        (gen_worksheet tbl colnames rows ⟨0, 0, 0, ""⟩).warnings =
      Except.ok res) ∧
    (gen_worksheet "t" [] [[SqlValue.text (List.replicate 40000 'a')]]
        ⟨0, 0, 0, ""⟩).dataRows =
      [[EmittedCell.inlineStr (List.replicate 32767 'a')]] ∧
    (gen_worksheet "t" [] [[SqlValue.text (List.replicate 40000 'a')]]
        ⟨0, 0, 0, ""⟩).warnings.cells_truncated = 1 := by
  have hbig : EXCEL_MAX_CELL_SIZE < (List.replicate 40000 'a').length := by
    rw [List.length_replicate]
    norm_num [EXCEL_MAX_CELL_SIZE]
  refine ⟨?_, ?_, ?_, rfl, ?_, ?_, ?_⟩
  · intro rn col s w hs
    simp only [emit_data_cell]
    rw [if_pos (by omega)]
  · rw [gen_worksheet_warnings, emit_data_rows_count]
    simp
  · intro r c h
    rw [gen_worksheet_warnings]
    exact emit_data_rows_first tbl rows 2 ⟨0, 0, 0, ""⟩ r c rfl h
  · unfold xlsx_export_result
    split
    · exact ⟨_, rfl⟩
    · exact ⟨_, rfl⟩
  · rw [gen_worksheet_dataRows, emit_single_text_rows "t" 2 _ _ hbig]
    rw [List.take_replicate]
    rw [show min EXCEL_MAX_CELL_SIZE 40000 = 32767 from by decide]
  · rw [gen_worksheet_warnings, emit_data_rows_count, countTrunc_single,
      truncating_big_replicate]
    simp

/-- Witness for the amended C3: the single 40,000-character data cell is the
first truncating cell (row 0, column 0 in scan order), and the recorded first
occurrence is table `t`, worksheet row 2, column 1. -/
theorem claim_C3_amended_witness :
    firstTruncPos [[SqlValue.text (List.replicate 40000 'a')]] = some (0, 0) ∧
    ((gen_worksheet "t" [] [[SqlValue.text (List.replicate 40000 'a')]]
        ⟨0, 0, 0, ""⟩).warnings.first_truncated_table = "t" ∧
      (gen_worksheet "t" [] [[SqlValue.text (List.replicate 40000 'a')]]
        ⟨0, 0, 0, ""⟩).warnings.first_truncated_row = 2 + 0 ∧
      (gen_worksheet "t" [] [[SqlValue.text (List.replicate 40000 'a')]]
        ⟨0, 0, 0, ""⟩).warnings.first_truncated_col = 0 + 1) := by
  have hft : firstTruncPos [[SqlValue.text (List.replicate 40000 'a')]] =
      some (0, 0) := firstTruncPos_single _ truncating_big_replicate
  exact ⟨hft,
    (claim_C3_amended "t" [] [[SqlValue.text (List.replicate 40000 'a')]]
      "f").2.2.1 0 0 hft⟩

end Xlsx
